import Mathlib

/-!
Verification of the Programmable Transaction model of the `sui` repository:
the explorer's batch Decoder (`Inputs.tsx`, `Commands.tsx`,
`ProgrammableTransactionView.tsx`) and the SDK's batch Builder
(`Transaction`), together with the sponsorship flow (`sponsorTransaction`).

The Decoder operates on decoded JSON wire values (`SuiJsonValue`), which we
embed as the inductive `JVal`, together with the JavaScript semantics the
source relies on: `String(v)` conversion, `JSON.stringify`, `typeof v ===
"object"` discrimination, `Array.prototype.join`, byte coercion through
`new Uint8Array(...)`, and the `toB64` base64 encoder.
-/

/-- Embedding of a `SuiJsonValue` / JSON wire value as handled by the
explorer decoder: null, booleans, (integer) numbers, strings, arrays and
objects. -/
inductive JVal where
  | null
  | bool (b : Bool)
  | num (n : Int)
  | str (s : String)
  | arr (xs : List JVal)
  | obj (fields : List (String × JVal))

mutual

/-- JavaScript `String(v)` conversion: `null` prints "null", booleans print
"true"/"false", numbers print in decimal, strings are themselves, arrays
print as their elements joined with "," (`Array.prototype.toString`), and
plain objects print as "[object Object]". -/
def jsToString : JVal → String
  | .null => "null"
  | .bool b => if b then "true" else "false"
  | .num n => toString n
  | .str s => s
  | .arr xs => jsJoinComma xs
  | .obj _ => "[object Object]"

/-- `Array.prototype.join` with separator "," (the default), as used by
`Array.prototype.toString`: `null` elements contribute the empty string. -/
def jsJoinComma : List JVal → String
  | [] => ""
  | [x] => jsElemString x
  | x :: y :: xs => jsElemString x ++ "," ++ jsJoinComma (y :: xs)

/-- The string an element contributes inside `Array.prototype.join`:
like `String(v)` except that `null` contributes the empty string. -/
def jsElemString : JVal → String
  | .null => ""
  | .bool b => if b then "true" else "false"
  | .num n => toString n
  | .str s => s
  | .arr xs => jsJoinComma xs
  | .obj _ => "[object Object]"

end

/-- `Array.prototype.join` with an arbitrary separator, as in the source's
`.join(", ")`: elements are converted like `jsElemString`. -/
def jsJoinSep (sep : String) : List JVal → String
  | [] => ""
  | [x] => jsElemString x
  | x :: y :: xs => jsElemString x ++ sep ++ jsJoinSep sep (y :: xs)

/-- Lower-case hexadecimal digit, for JSON `\u00XX` escapes. -/
def hexDigit (n : Nat) : Char :=
  if n < 10 then Char.ofNat (48 + n) else Char.ofNat (87 + n)

/-- Four lower-case hexadecimal digits of `n` (for `n < 65536`). -/
def hex4 (n : Nat) : String :=
  String.mk [hexDigit (n / 4096 % 16), hexDigit (n / 256 % 16),
             hexDigit (n / 16 % 16), hexDigit (n % 16)]

/-- How `JSON.stringify` escapes one character inside a string literal. -/
def jsonEscapeChar (c : Char) : String :=
  if c = '"' then "\\\""
  else if c = '\\' then "\\\\"
  else if c = '\n' then "\\n"
  else if c = '\t' then "\\t"
  else if c = '\r' then "\\r"
  else if c.toNat = 8 then "\\b"
  else if c.toNat = 12 then "\\f"
  else if c.toNat < 32 then "\\u" ++ hex4 c.toNat
  else String.singleton c

/-- `JSON.stringify` applied to a string: quoted and escaped. -/
def jsonQuote (s : String) : String :=
  "\"" ++ String.join (s.data.map jsonEscapeChar) ++ "\""

mutual

/-- JavaScript `JSON.stringify` on the embedded JSON values. -/
def jsonStringify : JVal → String
  | .null => "null"
  | .bool b => if b then "true" else "false"
  | .num n => toString n
  | .str s => jsonQuote s
  | .arr xs => "[" ++ jsonStringifyItems xs ++ "]"
  | .obj fs => "\x7b" ++ jsonStringifyFields fs ++ "\x7d"

/-- Comma-joined `JSON.stringify` of the items of an array. -/
def jsonStringifyItems : List JVal → String
  | [] => ""
  | [x] => jsonStringify x
  | x :: y :: xs => jsonStringify x ++ "," ++ jsonStringifyItems (y :: xs)

/-- Comma-joined `"key":value` renderings of the fields of an object. -/
def jsonStringifyFields : List (String × JVal) → String
  | [] => ""
  | [(k, v)] => jsonQuote k ++ ":" ++ jsonStringify v
  | (k, v) :: f :: fs =>
    jsonQuote k ++ ":" ++ jsonStringify v ++ "," ++ jsonStringifyFields (f :: fs)

end

/-- JavaScript `typeof v === "object"`: true for `null`, arrays and
objects; false for booleans, numbers and strings. -/
def jsTypeofObject : JVal → Bool
  | .null => true
  | .arr _ => true
  | .obj _ => true
  | _ => false

/-- JavaScript `ToNumber` on a string, restricted to optional-sign decimal
integers (the only shapes the embedded values produce): the empty /
all-whitespace string converts to 0, a signed decimal numeral to its value,
anything else to NaN (`none`). -/
def strToNumber (s : String) : Option Int :=
  let t := s.trim
  if t = "" then some 0
  else
    let core := if t.startsWith "-" || t.startsWith "+" then t.drop 1 else t
    let sign : Int := if t.startsWith "-" then -1 else 1
    if core.length ≠ 0 && core.data.all Char.isDigit then
      some (sign * Int.ofNat (core.data.foldl (fun acc c => acc * 10 + (c.toNat - 48)) 0))
    else none

/-- JavaScript `ToNumber` of a JSON value; `none` models NaN. Arrays
convert through their join string (`ToPrimitive`), plain objects through
"[object Object]" (hence NaN). -/
def jsToNumber : JVal → Option Int
  | .null => some 0
  | .bool b => some (if b then 1 else 0)
  | .num n => some n
  | .str s => strToNumber s
  | .arr xs => strToNumber (jsJoinComma xs)
  | .obj _ => strToNumber "[object Object]"

/-- The byte an element of a JS array becomes inside
`new Uint8Array(array)`: `ToNumber` then reduction mod 256, with NaN
becoming 0. -/
def toUint8 (v : JVal) : Nat :=
  match jsToNumber v with
  | none => 0
  | some i => (i % 256).toNat

/-- One base64 alphabet character (input below 64). -/
def b64Char (n : Nat) : Char :=
  if n < 26 then Char.ofNat (65 + n)
  else if n < 52 then Char.ofNat (97 + (n - 26))
  else if n < 62 then Char.ofNat (48 + (n - 52))
  else if n = 62 then '+' else '/'

/-- The `toB64` encoder of `@mysten/sui.js`: standard base64 with `=`
padding, over a byte list. -/
def toB64 : List Nat → String
  | [] => ""
  | [a] => String.mk [b64Char (a / 4), b64Char (a % 4 * 16), '=', '=']
  | [a, b] =>
    String.mk [b64Char (a / 4), b64Char (a % 4 * 16 + b / 16), b64Char (b % 16 * 4), '=']
  | a :: b :: c :: rest =>
    String.mk [b64Char (a / 4), b64Char (a % 4 * 16 + b / 16),
               b64Char (b % 16 * 4 + c / 64), b64Char (c % 64)]
      ++ toB64 rest

/-! ## The Decoder (`Inputs.tsx`, `Commands.tsx`,
`ProgrammableTransactionView.tsx`) -/

/-- Classification tag the Decoder assigns to an input value. -/
inductive InputClass where
  | RawBytes
  | AddressOrObject
deriving DecidableEq, Repr

/-- One entry of the Decoder's display structure for inputs. -/
structure InputDisplay where
  tag : InputClass
  text : String
deriving DecidableEq, Repr

/-- The per-input classification and rendering of `Inputs.tsx`: if
`Array.isArray(input)` the input renders as `toB64(new Uint8Array(input))`
under the `RawBytes` style, otherwise as `String(input)` through the
`AddressOrObject` component. -/
def decodeInput (input : JVal) : InputDisplay :=
  match input with
  | .arr xs => { tag := .RawBytes, text := toB64 (xs.map toUint8) }
  | v => { tag := .AddressOrObject, text := jsToString v }

/-- The `inputs.map(...)` of `Inputs.tsx`. -/
def decodeInputs (inputs : List JVal) : List InputDisplay :=
  inputs.map decodeInput

/-- The whole `Inputs` component: `if (!inputs?.length) return null;`
otherwise the section with the decoded list. -/
def inputsView (inputs : Option (List JVal)) : Option (List InputDisplay) :=
  match inputs with
  | none => none
  | some l => if l.length = 0 then none else some (decodeInputs l)

/-- A `ProgrammableTransactionCommand`: a one-key record whose key is the
command kind name (`Object.keys(command)[0]`) and whose value is the
kind-specific argument data. -/
structure PTCommand where
  kindName : String
  data : JVal

/-- `formatCommandData` of `Commands.tsx`: an array maps each element to
`JSON.stringify(element)` when `typeof element === "object"` and leaves it
as-is otherwise, then joins with `", "`; non-array data is
`JSON.stringify`ed directly. -/
def formatCommandData (commandData : JVal) : String :=
  match commandData with
  | .arr xs =>
    jsJoinSep ", " (xs.map fun d => if jsTypeofObject d then JVal.str (jsonStringify d) else d)
  | v => jsonStringify v

/-- One entry of the Decoder's display structure for commands. -/
structure CommandDisplay where
  name : String
  argsText : String
deriving DecidableEq, Repr

/-- The per-command rendering of `Commands.tsx`: the kind name, and the
formatted argument data wrapped in parentheses. -/
def decodeCommand (command : PTCommand) : CommandDisplay :=
  { name := command.kindName, argsText := "(" ++ formatCommandData command.data ++ ")" }

/-- The `commands.map(...)` of `Commands.tsx`. -/
def decodeCommands (commands : List PTCommand) : List CommandDisplay :=
  commands.map decodeCommand

/-- The whole `Commands` component: `if (!commands?.length) return null;`
otherwise the section with the decoded list. -/
def commandsView (commands : Option (List PTCommand)) : Option (List CommandDisplay) :=
  match commands with
  | none => none
  | some l => if l.length = 0 then none else some (decodeCommands l)

/-- The transaction data handed to `ProgrammableTransactionView`. -/
structure PTData where
  inputs : Option (List JVal)
  commands : Option (List PTCommand)

/-- `ProgrammableTransactionView`: renders the `Inputs` view and the
`Commands` view of the transaction data. -/
def decodeTransactionView (t : PTData) :
    Option (List InputDisplay) × Option (List CommandDisplay) :=
  (inputsView t.inputs, commandsView t.commands)

/-! ## The Batch Builder (SDK `Transaction`)

The SDK's `Transaction` builder class (`fromKind`, `addInput`/`addCommand`,
`setSender`, `setGasOwner`, `build`) is part of this repository's
`sdk/typescript` package, but its implementation is absent from the source
tree here; only its caller `sponsorTransaction` and an end-to-end test
exercise it. The definitions below therefore model it from the
specification's own words. -/

/-- Modelled from the spec: an input value is either `Pure(bytes)` (opaque
caller-serialized bytes) or `ObjectRef(id, optional version/owner hint)`.
The `Transaction` input value model is absent from the source tree. -/
inductive InputValue where
  | pure (bytes : List Nat)
  | objectRef (id : String) (version : Option Nat) (owner : Option String)
deriving DecidableEq, Repr

/-- Modelled from the spec: a command argument is a reference, not a value:
`InputRef(index)`, `ResultRef(commandIndex, optional sub-index)`, or the
reserved `GasCoin` reference. -/
inductive Argument where
  | inputRef (ix : Nat)
  | resultRef (cmdIx : Nat) (subIx : Option Nat)
  | gasCoin
deriving DecidableEq, Repr

/-- Modelled from the spec: the closed set of command kinds. -/
inductive CommandKind where
  | moveCall
  | split
  | merge
  | transfer
  | publish
  | upgrade
  | makeVec
deriving DecidableEq, Repr

/-- Modelled from the spec: a command is a kind tag plus a kind-specific
ordered argument list. -/
structure Command where
  kind : CommandKind
  args : List Argument
deriving DecidableEq, Repr

/-- Modelled from the spec: the Builder's structural error taxonomy. -/
inductive BuildError where
  | DuplicateOrInvalidInput
  | DangedReference
  | ArityMismatch
  | AlreadySet
  | MissingSender
deriving DecidableEq, Repr

/-- Modelled from the spec: the Builder's mutable accumulator state —
ordered Input table, ordered Command sequence, and the two set-once
sender / gas-owner fields (`none` = unset). -/
structure TransactionBuilder where
  inputs : List InputValue
  commands : List Command
  sender : Option String
  gasOwner : Option String
deriving DecidableEq, Repr

/-- The Builder's initial, empty state. -/
def emptyBuilder : TransactionBuilder :=
  { inputs := [], commands := [], sender := none, gasOwner := none }

/-- Modelled from the spec: the Value Model's syntactic check on an
`object` reference's identifier (pure payloads are opaque and never
checked); approximated as nonemptiness since the spec does not pin the
identifier grammar down further. -/
def validObjectId (id : String) : Bool :=
  id.length ≠ 0

/-- Modelled from the spec: the Value Model accepts any `pure` payload
verbatim and requires `object` references to carry a syntactically valid
identifier. -/
def validValue : InputValue → Bool
  | .pure _ => true
  | .objectRef id _ _ => validObjectId id

/-- Modelled from the spec: `addInput(value)` appends to the Input table
and returns the new input's index (the table length before insertion);
it fails with `DuplicateOrInvalidInput` only when the value fails the
Value Model's syntactic check, leaving the builder untouched. -/
def addInput (b : TransactionBuilder) (v : InputValue) :
    TransactionBuilder × Except BuildError Nat :=
  if validValue v then
    ({ b with inputs := b.inputs ++ [v] }, .ok b.inputs.length)
  else (b, .error .DuplicateOrInvalidInput)

/-- Modelled from the spec: an argument reference resolves when its input
index exists in the Input table, its result command-index is strictly
smaller than the current command count, or it is the reserved gas
reference. -/
def argResolves (b : TransactionBuilder) : Argument → Bool
  | .inputRef i => decide (i < b.inputs.length)
  | .resultRef c _ => decide (c < b.commands.length)
  | .gasCoin => true

/-- Modelled from the spec: the minimum argument count of a kind's
signature — `split` takes a coin plus at least one amount, `transfer`
takes at least one object plus a recipient; the other kinds' arities are
not constrained by the spec's examples. -/
def minArity : CommandKind → Nat
  | .split => 2
  | .transfer => 2
  | _ => 0

/-- Modelled from the spec: the arity check of a command kind's declared
signature. -/
def arityOk (k : CommandKind) (args : List Argument) : Bool :=
  decide (minArity k ≤ args.length)

/-- Modelled from the spec: `addCommand(kind, args)` validates that every
argument reference resolves (failing with `DangedReference` otherwise) and
that the argument list matches the kind's signature (failing with
`ArityMismatch` otherwise); on success it appends the command and returns
the new command's index. Failure performs no mutation (atomic append). -/
def addCommand (b : TransactionBuilder) (k : CommandKind) (args : List Argument) :
    TransactionBuilder × Except BuildError Nat :=
  if args.all (argResolves b) then
    if arityOk k args then
      ({ b with commands := b.commands ++ [{ kind := k, args := args }] },
       .ok b.commands.length)
    else (b, .error .ArityMismatch)
  else (b, .error .DangedReference)

/-- Modelled from the spec: `setSender(address)` is a set-once field —
it fills an unset sender, is idempotent on the same value, and fails with
`AlreadySet` on a conflicting value, never touching Inputs or Commands. -/
def setSender (b : TransactionBuilder) (addr : String) :
    TransactionBuilder × Except BuildError Unit :=
  match b.sender with
  | none => ({ b with sender := some addr }, .ok ())
  | some a => if a = addr then (b, .ok ()) else (b, .error .AlreadySet)

/-- Modelled from the spec: `setGasOwner(address)`, the same set-once
discipline as `setSender`, used by the sponsorship relay. -/
def setGasOwner (b : TransactionBuilder) (addr : String) :
    TransactionBuilder × Except BuildError Unit :=
  match b.gasOwner with
  | none => ({ b with gasOwner := some addr }, .ok ())
  | some a => if a = addr then (b, .ok ()) else (b, .error .AlreadySet)

/-- Modelled from the spec: the immutable finalized Batch — Input table,
Command sequence, sender, and gas-owner (defaulting to the sender). -/
structure Batch where
  inputs : List InputValue
  commands : List Command
  sender : String
  gasOwner : String
deriving DecidableEq, Repr

/-- Modelled from the spec: `finalize()` fails with `MissingSender` when
the sender is unset (no implicit defaulting) and otherwise returns the
immutable Batch, with the gas-owner defaulting to the sender. -/
def finalize (b : TransactionBuilder) : Except BuildError Batch :=
  match b.sender with
  | none => .error .MissingSender
  | some s =>
    .ok { inputs := b.inputs, commands := b.commands, sender := s,
          gasOwner := b.gasOwner.getD s }

/-! ## Kind bytes (`Transaction.fromKind` / serialized transaction kind)

Modelled from the spec: a byte encoding of the Input table and the Command
sequence with sender and gas-owner deliberately omitted, round-tripping
losslessly. The concrete wire layout below is a length-prefixed tag/varint
encoding; the spec fixes only the content, not the layout. -/

/-- Variable-length byte encoding of a natural number: seven value bits per
byte, a set high bit marking a continuation. Every emitted entry is below
256. -/
def encNat (n : Nat) : List Nat :=
  if h : n < 128 then [n] else (128 + n % 128) :: encNat (n / 128)
termination_by n
decreasing_by
  exact Nat.div_lt_self (Nat.lt_of_lt_of_le (by norm_num) (Nat.le_of_not_lt h)) (by norm_num)

/-- Decoder for `encNat`, returning the value and the remaining bytes. -/
def decNat : List Nat → Option (Nat × List Nat)
  | [] => none
  | b :: rest =>
    if b < 128 then some (b, rest)
    else
      match decNat rest with
      | none => none
      | some (m, r) => some ((b - 128) + 128 * m, r)

/-- Length-prefixed encoding of a list, given an element encoder. -/
def encList (f : α → List Nat) (l : List α) : List Nat :=
  encNat l.length ++ (l.map f).flatten

/-- Decode exactly `k` consecutive elements with the element decoder `g`. -/
def decCount (g : List Nat → Option (α × List Nat)) :
    Nat → List Nat → Option (List α × List Nat)
  | 0, bs => some ([], bs)
  | k + 1, bs =>
    match g bs with
    | none => none
    | some (a, r) =>
      match decCount g k r with
      | none => none
      | some (as, r2) => some (a :: as, r2)

/-- Decoder for `encList`: read the length prefix, then that many
elements. -/
def decList (g : List Nat → Option (α × List Nat)) (bs : List Nat) :
    Option (List α × List Nat) :=
  match decNat bs with
  | none => none
  | some (n, r) => decCount g n r

/-- Encoding of one character as its code point. -/
def encChar (c : Char) : List Nat :=
  encNat c.toNat

/-- Decoder for `encChar`. -/
def decChar (bs : List Nat) : Option (Char × List Nat) :=
  match decNat bs with
  | none => none
  | some (n, r) => some (Char.ofNat n, r)

/-- Length-prefixed encoding of a string's characters. -/
def encString (s : String) : List Nat :=
  encList encChar s.data

/-- Decoder for `encString`. -/
def decString (bs : List Nat) : Option (String × List Nat) :=
  match decList decChar bs with
  | none => none
  | some (cs, r) => some (String.mk cs, r)

/-- Tagged encoding of an optional value. -/
def encOption (f : α → List Nat) : Option α → List Nat
  | none => [0]
  | some a => 1 :: f a

/-- Decoder for `encOption`. -/
def decOption (g : List Nat → Option (α × List Nat)) :
    List Nat → Option (Option α × List Nat)
  | [] => none
  | t :: r =>
    if t = 0 then some (none, r)
    else if t = 1 then
      match g r with
      | none => none
      | some (a, r2) => some (some a, r2)
    else none

/-- Tagged encoding of an input value. -/
def encInputValue : InputValue → List Nat
  | .pure bs => 0 :: encList encNat bs
  | .objectRef id v o => 1 :: (encString id ++ encOption encNat v ++ encOption encString o)

/-- Decoder for `encInputValue`. -/
def decInputValue : List Nat → Option (InputValue × List Nat)
  | [] => none
  | t :: r =>
    if t = 0 then
      match decList decNat r with
      | none => none
      | some (bs, r2) => some (.pure bs, r2)
    else if t = 1 then
      match decString r with
      | none => none
      | some (id, r2) =>
        match decOption decNat r2 with
        | none => none
        | some (v, r3) =>
          match decOption decString r3 with
          | none => none
          | some (o, r4) => some (.objectRef id v o, r4)
    else none

/-- Tagged encoding of a command argument. -/
def encArgument : Argument → List Nat
  | .inputRef i => 0 :: encNat i
  | .resultRef c s => 1 :: (encNat c ++ encOption encNat s)
  | .gasCoin => [2]

/-- Decoder for `encArgument`. -/
def decArgument : List Nat → Option (Argument × List Nat)
  | [] => none
  | t :: r =>
    if t = 0 then
      match decNat r with
      | none => none
      | some (i, r2) => some (.inputRef i, r2)
    else if t = 1 then
      match decNat r with
      | none => none
      | some (c, r2) =>
        match decOption decNat r2 with
        | none => none
        | some (s, r3) => some (.resultRef c s, r3)
    else if t = 2 then some (.gasCoin, r)
    else none

/-- Single-byte tag of a command kind. -/
def kindTag : CommandKind → Nat
  | .moveCall => 0
  | .split => 1
  | .merge => 2
  | .transfer => 3
  | .publish => 4
  | .upgrade => 5
  | .makeVec => 6

/-- Encoding of a command kind as its tag. -/
def encCommandKind (k : CommandKind) : List Nat :=
  [kindTag k]

/-- Decoder for `encCommandKind`. -/
def decCommandKind : List Nat → Option (CommandKind × List Nat)
  | [] => none
  | t :: r =>
    if t = 0 then some (.moveCall, r)
    else if t = 1 then some (.split, r)
    else if t = 2 then some (.merge, r)
    else if t = 3 then some (.transfer, r)
    else if t = 4 then some (.publish, r)
    else if t = 5 then some (.upgrade, r)
    else if t = 6 then some (.makeVec, r)
    else none

/-- Encoding of a command: kind tag, then argument list. -/
def encCommand (c : Command) : List Nat :=
  encCommandKind c.kind ++ encList encArgument c.args

/-- Decoder for `encCommand`. -/
def decCommand (bs : List Nat) : Option (Command × List Nat) :=
  match decCommandKind bs with
  | none => none
  | some (k, r) =>
    match decList decArgument r with
    | none => none
    | some (args, r2) => some ({ kind := k, args := args }, r2)

/-- Modelled from the spec: the serialized transaction "kind" — the byte
encoding of the Input table and the Command sequence, with sender and
gas-owner deliberately omitted. -/
def toKindBytes (b : TransactionBuilder) : List Nat :=
  encList encInputValue b.inputs ++ encList encCommand b.commands

/-- Modelled from the spec: `Transaction.fromKind(bytes)` reconstructs a
builder holding the encoded Input table and Command sequence, with the
sender and gas-owner fields absent (unset). -/
def fromKindBytes (bs : List Nat) : Option TransactionBuilder :=
  match decList decInputValue bs with
  | none => none
  | some (ins, r) =>
    match decList decCommand r with
    | none => none
    | some (cmds, r2) =>
      if r2 = [] then
        some { inputs := ins, commands := cmds, sender := none, gasOwner := none }
      else none

/-- The sponsorship flow of `sponsorTransaction`: reconstruct a transaction
from kind bytes, attach the original sender with `setSender`, attach the
sponsor's address with `setGasOwner`, and hand the result onward (the
result is `none` when any step fails). -/
def sponsorTransaction (sender : String) (transactionKindBytes : List Nat)
    (sponsorAddress : String) : Option TransactionBuilder :=
  match fromKindBytes transactionKindBytes with
  | none => none
  | some tx =>
    match setSender tx sender with
    | (_, .error _) => none
    | (tx1, .ok _) =>
      match setGasOwner tx1 sponsorAddress with
      | (_, .error _) => none
      | (tx2, .ok _) => some tx2

/-! ## Lemmas: the kind-bytes encoding round-trips -/

theorem decNat_encNat (n : Nat) : ∀ t, decNat (encNat n ++ t) = some (n, t) := by
  induction n using Nat.strong_induction_on with
  | _ n ih =>
    intro t
    rw [encNat]
    split
    · next h => simp [decNat, h]
    · next h =>
      have hlt : n / 128 < n := Nat.div_lt_self (by omega) (by norm_num)
      simp only [List.cons_append, decNat, List.append_eq]
      rw [if_neg (by omega), ih (n / 128) hlt t]
      simp only []
      congr 1
      congr 1
      omega

theorem decCount_flatten {α : Type} {f : α → List Nat}
    {g : List Nat → Option (α × List Nat)}
    (hg : ∀ a t, g (f a ++ t) = some (a, t)) :
    ∀ (l : List α) (t : List Nat),
      decCount g l.length ((l.map f).flatten ++ t) = some (l, t) := by
  intro l
  induction l with
  | nil => intro t; simp [decCount]
  | cons a as ih =>
    intro t
    simp only [List.map_cons, List.flatten_cons, List.length_cons, List.append_assoc,
      decCount]
    rw [hg a ((as.map f).flatten ++ t)]
    simp only []
    rw [ih t]

theorem decList_encList {α : Type} {f : α → List Nat}
    {g : List Nat → Option (α × List Nat)}
    (hg : ∀ a t, g (f a ++ t) = some (a, t)) (l : List α) (t : List Nat) :
    decList g (encList f l ++ t) = some (l, t) := by
  unfold decList encList
  rw [List.append_assoc, decNat_encNat l.length ((l.map f).flatten ++ t)]
  exact decCount_flatten hg l t

theorem decChar_encChar (c : Char) (t : List Nat) :
    decChar (encChar c ++ t) = some (c, t) := by
  simp [decChar, encChar, decNat_encNat, Char.ofNat_toNat]

theorem decString_encString (s : String) (t : List Nat) :
    decString (encString s ++ t) = some (s, t) := by
  simp [decString, encString, decList_encList decChar_encChar]

theorem decOption_encOption {α : Type} {f : α → List Nat}
    {g : List Nat → Option (α × List Nat)}
    (hg : ∀ a t, g (f a ++ t) = some (a, t)) (o : Option α) (t : List Nat) :
    decOption g (encOption f o ++ t) = some (o, t) := by
  cases o with
  | none => simp [encOption, decOption]
  | some a => simp [encOption, decOption, hg a t]

theorem decInputValue_encInputValue (v : InputValue) (t : List Nat) :
    decInputValue (encInputValue v ++ t) = some (v, t) := by
  cases v with
  | pure bs =>
    simp [encInputValue, decInputValue, decList_encList decNat_encNat]
  | objectRef id ver ow =>
    simp [encInputValue, decInputValue, List.append_assoc, decString_encString,
      decOption_encOption decNat_encNat, decOption_encOption decString_encString]

theorem decArgument_encArgument (a : Argument) (t : List Nat) :
    decArgument (encArgument a ++ t) = some (a, t) := by
  cases a with
  | inputRef i => simp [encArgument, decArgument, decNat_encNat]
  | resultRef c s =>
    simp [encArgument, decArgument, List.append_assoc, decNat_encNat,
      decOption_encOption decNat_encNat]
  | gasCoin => simp [encArgument, decArgument]

theorem decCommandKind_encCommandKind (k : CommandKind) (t : List Nat) :
    decCommandKind (encCommandKind k ++ t) = some (k, t) := by
  cases k <;> simp [encCommandKind, decCommandKind, kindTag]

theorem decCommand_encCommand (c : Command) (t : List Nat) :
    decCommand (encCommand c ++ t) = some (c, t) := by
  simp [decCommand, encCommand, List.append_assoc, decCommandKind_encCommandKind,
    decList_encList decArgument_encArgument]

/-- The kind-bytes round-trip: deserializing a serialized kind reproduces
the Input table and Command sequence exactly, with sender and gas-owner
unset. -/
theorem fromKindBytes_toKindBytes (b : TransactionBuilder) :
    fromKindBytes (toKindBytes b) =
      some { inputs := b.inputs, commands := b.commands,
             sender := none, gasOwner := none } := by
  unfold fromKindBytes toKindBytes
  rw [decList_encList decInputValue_encInputValue b.inputs (encList encCommand b.commands)]
  simp only []
  have h2 := decList_encList decCommand_encCommand b.commands []
  rw [List.append_nil] at h2
  rw [h2]
  simp

/-! ## Builder call sequences -/

/-- One append operation against the Builder. -/
inductive BuildOp where
  | addInputOp (v : InputValue)
  | addCommandOp (k : CommandKind) (args : List Argument)
deriving DecidableEq, Repr

/-- What one Builder call hands back: an input-table index, a command
(result) index, or a structural error. -/
inductive RetRef where
  | inputIdx (i : Nat)
  | resultIdx (i : Nat)
  | failed (e : BuildError)
deriving DecidableEq, Repr

/-- Run one append operation, pairing the new builder state with the
returned reference. -/
def runOp (b : TransactionBuilder) : BuildOp → TransactionBuilder × RetRef
  | .addInputOp v =>
    match addInput b v with
    | (b2, .ok i) => (b2, .inputIdx i)
    | (b2, .error e) => (b2, .failed e)
  | .addCommandOp k args =>
    match addCommand b k args with
    | (b2, .ok i) => (b2, .resultIdx i)
    | (b2, .error e) => (b2, .failed e)

/-- Run a sequence of append operations, collecting the returned
references in call order. -/
def runOps (b : TransactionBuilder) : List BuildOp → TransactionBuilder × List RetRef
  | [] => (b, [])
  | op :: ops =>
    let step := runOp b op
    let rest := runOps step.1 ops
    (rest.1, step.2 :: rest.2)

/-- The input-table indices among a trace of returned references, in call
order. -/
def inputIdxs (l : List RetRef) : List Nat :=
  l.filterMap fun r => match r with | .inputIdx i => some i | _ => none

/-- The command (result) indices among a trace of returned references, in
call order. -/
def resultIdxs (l : List RetRef) : List Nat :=
  l.filterMap fun r => match r with | .resultIdx i => some i | _ => none

/-- How many operations of a sequence are `addInput` calls. -/
def countInputOps (ops : List BuildOp) : Nat :=
  ops.countP fun op => match op with | .addInputOp _ => true | _ => false

/-- How many operations of a sequence are `addCommand` calls. -/
def countCommandOps (ops : List BuildOp) : Nat :=
  ops.countP fun op => match op with | .addCommandOp _ _ => true | _ => false

/-! ## Spec-side renderings for the Decoder claims -/

/-- The claim's "nested array-of-bytes": an array whose elements are all
byte-valued numbers (0–255). -/
def isNestedByteArray : JVal → Bool
  | .arr xs =>
    xs.all fun x =>
      match x with
      | .num n => decide (0 ≤ n) && decide (n < 256)
      | _ => false
  | _ => false

/-- The amended classification discriminator: the value is an array. -/
def isArrayValue : JVal → Bool
  | .arr _ => true
  | _ => false

/-- Joining already-rendered strings with a separator. -/
def joinSep (sep : String) : List String → String
  | [] => ""
  | [x] => x
  | x :: y :: xs => x ++ sep ++ joinSep sep (y :: xs)

/-- Follows claim C2's wording: array argument data renders element-wise —
object elements JSON-stringified, non-object elements left as-is
(contributing their element string) — joined with the comma separator;
non-array argument data is JSON-stringified directly. -/
def specFormatCommandData : JVal → String
  | .arr xs =>
    joinSep ", " (xs.map fun d => if jsTypeofObject d then jsonStringify d else jsElemString d)
  | v => jsonStringify v

theorem jsJoinSep_eq_joinSep (sep : String) :
    ∀ l, jsJoinSep sep l = joinSep sep (l.map jsElemString) := by
  intro l
  induction l with
  | nil => rfl
  | cons x xs ih =>
    cases xs with
    | nil => rfl
    | cons y ys =>
      simp only [jsJoinSep, joinSep, List.map_cons] at *
      rw [ih]


/-! ## Lemmas: Builder call sequences -/

theorem runOp_addInput_ok (b : TransactionBuilder) (v : InputValue)
    (hv : validValue v = true) :
    runOp b (.addInputOp v) =
      ({ b with inputs := b.inputs ++ [v] }, .inputIdx b.inputs.length) := by
  simp [runOp, addInput, hv]

theorem runOp_addInput_err (b : TransactionBuilder) (v : InputValue)
    (hv : validValue v = false) :
    runOp b (.addInputOp v) = (b, .failed .DuplicateOrInvalidInput) := by
  simp [runOp, addInput, hv]

theorem runOp_addCommand_ok (b : TransactionBuilder) (k : CommandKind)
    (args : List Argument) (hr : args.all (argResolves b) = true)
    (ha : arityOk k args = true) :
    runOp b (.addCommandOp k args) =
      ({ b with commands := b.commands ++ [{ kind := k, args := args }] },
       .resultIdx b.commands.length) := by
  simp [runOp, addCommand, hr, ha]

theorem runOp_addCommand_arity (b : TransactionBuilder) (k : CommandKind)
    (args : List Argument) (hr : args.all (argResolves b) = true)
    (ha : arityOk k args = false) :
    runOp b (.addCommandOp k args) = (b, .failed .ArityMismatch) := by
  simp [runOp, addCommand, hr, ha]

theorem runOp_addCommand_dang (b : TransactionBuilder) (k : CommandKind)
    (args : List Argument) (hr : args.all (argResolves b) = false) :
    runOp b (.addCommandOp k args) = (b, .failed .DangedReference) := by
  simp [runOp, addCommand, hr]

theorem runOps_cons (b : TransactionBuilder) (op : BuildOp) (ops : List BuildOp) :
    runOps b (op :: ops) =
      ((runOps (runOp b op).1 ops).1, (runOp b op).2 :: (runOps (runOp b op).1 ops).2) :=
  rfl

theorem runOps_extend (ops : List BuildOp) :
    ∀ b : TransactionBuilder,
      ∃ s1 s2, (runOps b ops).1.inputs = b.inputs ++ s1
        ∧ (runOps b ops).1.commands = b.commands ++ s2 := by
  induction ops with
  | nil => intro b; exact ⟨[], [], by simp [runOps], by simp [runOps]⟩
  | cons op ops ih =>
    intro b
    obtain ⟨s1, s2, h1, h2⟩ := ih (runOp b op).1
    cases op with
    | addInputOp v =>
      cases hv : validValue v with
      | true =>
        rw [runOp_addInput_ok b v hv] at h1 h2
        refine ⟨[v] ++ s1, s2, ?_, ?_⟩
        · rw [runOps_cons, runOp_addInput_ok b v hv]
          simpa [List.append_assoc] using h1
        · rw [runOps_cons, runOp_addInput_ok b v hv]
          simpa using h2
      | false =>
        rw [runOp_addInput_err b v hv] at h1 h2
        refine ⟨s1, s2, ?_, ?_⟩
        · rw [runOps_cons, runOp_addInput_err b v hv]
          exact h1
        · rw [runOps_cons, runOp_addInput_err b v hv]
          exact h2
    | addCommandOp k args =>
      cases hr : args.all (argResolves b) with
      | true =>
        cases ha : arityOk k args with
        | true =>
          rw [runOp_addCommand_ok b k args hr ha] at h1 h2
          refine ⟨s1, [{ kind := k, args := args }] ++ s2, ?_, ?_⟩
          · rw [runOps_cons, runOp_addCommand_ok b k args hr ha]
            simpa using h1
          · rw [runOps_cons, runOp_addCommand_ok b k args hr ha]
            simpa [List.append_assoc] using h2
        | false =>
          rw [runOp_addCommand_arity b k args hr ha] at h1 h2
          refine ⟨s1, s2, ?_, ?_⟩
          · rw [runOps_cons, runOp_addCommand_arity b k args hr ha]
            exact h1
          · rw [runOps_cons, runOp_addCommand_arity b k args hr ha]
            exact h2
      | false =>
        rw [runOp_addCommand_dang b k args hr] at h1 h2
        refine ⟨s1, s2, ?_, ?_⟩
        · rw [runOps_cons, runOp_addCommand_dang b k args hr]
          exact h1
        · rw [runOps_cons, runOp_addCommand_dang b k args hr]
          exact h2

theorem runOps_indices (ops : List BuildOp) :
    ∀ b : TransactionBuilder,
      (∀ e, RetRef.failed e ∉ (runOps b ops).2) →
        inputIdxs (runOps b ops).2 = List.range' b.inputs.length (countInputOps ops)
        ∧ resultIdxs (runOps b ops).2 =
            List.range' b.commands.length (countCommandOps ops) := by
  induction ops with
  | nil =>
    intro b _
    simp [runOps, inputIdxs, resultIdxs, countInputOps, countCommandOps]
  | cons op ops ih =>
    intro b h
    have htail : ∀ e, RetRef.failed e ∉ (runOps (runOp b op).1 ops).2 := by
      intro e he
      exact h e (by rw [runOps_cons]; exact List.mem_cons_of_mem _ he)
    have hhead : ∀ e, (runOp b op).2 ≠ RetRef.failed e := by
      intro e he
      exact h e (by rw [runOps_cons, ← he]; exact List.mem_cons_self _ _)
    obtain ⟨ih1, ih2⟩ := ih (runOp b op).1 htail
    cases op with
    | addInputOp v =>
      cases hv : validValue v with
      | true =>
        rw [runOp_addInput_ok b v hv] at ih1 ih2
        rw [runOps_cons, runOp_addInput_ok b v hv]
        constructor
        · simp only [inputIdxs, List.filterMap_cons] at ih1 ⊢
          rw [ih1]
          simp only [countInputOps, List.countP_cons]
          simp [List.range']
        · simp only [resultIdxs, List.filterMap_cons] at ih2 ⊢
          rw [ih2]
          simp [countCommandOps, List.countP_cons]
      | false =>
        exact absurd (runOp_addInput_err b v hv ▸ rfl)
          (hhead .DuplicateOrInvalidInput)
    | addCommandOp k args =>
      cases hr : args.all (argResolves b) with
      | true =>
        cases ha : arityOk k args with
        | true =>
          rw [runOp_addCommand_ok b k args hr ha] at ih1 ih2
          rw [runOps_cons, runOp_addCommand_ok b k args hr ha]
          constructor
          · simp only [inputIdxs, List.filterMap_cons] at ih1 ⊢
            rw [ih1]
            simp [countInputOps, List.countP_cons]
          · simp only [resultIdxs, List.filterMap_cons] at ih2 ⊢
            rw [ih2]
            simp only [countCommandOps, List.countP_cons]
            simp [List.range']
        | false =>
          exact absurd (runOp_addCommand_arity b k args hr ha ▸ rfl)
            (hhead .ArityMismatch)
      | false =>
        exact absurd (runOp_addCommand_dang b k args hr ▸ rfl)
          (hhead .DangedReference)

/-! ## Claim theorems: the Decoder -/

/-- Claim C1, counterexample: the Decoder classifies the input
`["x"]` — an array that is not a nested array-of-bytes — as `RawBytes`,
so "RawBytes if and only if the value is a nested array-of-bytes" fails in
the only-if direction. -/
theorem inputClassification_counterexample :
    (decodeInput (JVal.arr [JVal.str "x"])).tag = InputClass.RawBytes
    ∧ isNestedByteArray (JVal.arr [JVal.str "x"]) = false :=
  ⟨rfl, rfl⟩

/-- Claim C1 (amended): the Decoder classifies an input as `RawBytes`
(rendering it as the base64 encoding of the element-wise byte coercion) if
and only if the value is an array — regardless of whether its elements are
bytes — and renders every non-array value in the `AddressOrObject` style
as the value's string conversion. -/
theorem inputClassification (v : JVal) :
    ((decodeInput v).tag = InputClass.RawBytes ↔ isArrayValue v = true)
    ∧ (∀ xs, v = JVal.arr xs → (decodeInput v).text = toB64 (xs.map toUint8))
    ∧ (isArrayValue v = false →
        decodeInput v = { tag := .AddressOrObject, text := jsToString v }) := by
  cases v with
  | arr xs =>
    refine ⟨by simp [decodeInput, isArrayValue], ?_, ?_⟩
    · intro ys hy
      injection hy with h
      subst h
      rfl
    · intro h
      simp [isArrayValue] at h
  | null =>
    refine ⟨by simp [decodeInput, isArrayValue], ?_, fun _ => rfl⟩
    intro ys hy; cases hy
  | bool b =>
    refine ⟨by simp [decodeInput, isArrayValue], ?_, fun _ => rfl⟩
    intro ys hy; cases hy
  | num n =>
    refine ⟨by simp [decodeInput, isArrayValue], ?_, fun _ => rfl⟩
    intro ys hy; cases hy
  | str s =>
    refine ⟨by simp [decodeInput, isArrayValue], ?_, fun _ => rfl⟩
    intro ys hy; cases hy
  | obj fs =>
    refine ⟨by simp [decodeInput, isArrayValue], ?_, fun _ => rfl⟩
    intro ys hy; cases hy

/-- Claim C1, witness: the amended statement evaluated at an array input
and at a string input. -/
theorem inputClassification_witness :
    (decodeInput (JVal.arr [JVal.num 7])).text = toB64 ([JVal.num 7].map toUint8)
    ∧ decodeInput (JVal.str "0x2") =
        { tag := InputClass.AddressOrObject, text := "0x2" } :=
  ⟨(inputClassification (JVal.arr [JVal.num 7])).2.1 [JVal.num 7] rfl,
   (inputClassification (JVal.str "0x2")).2.2 rfl⟩

/-- Claim C2: every command renders as its kind name plus the flattened
argument string — array data maps object elements to their JSON
stringification, leaves non-object elements as-is, and joins with the
comma separator ", "; non-array data is JSON-stringified directly. -/
theorem commandRendering (v : JVal) (c : PTCommand) :
    formatCommandData v = specFormatCommandData v
    ∧ decodeCommand c =
        { name := c.kindName,
          argsText := "(" ++ specFormatCommandData c.data ++ ")" } := by
  have key : ∀ w, formatCommandData w = specFormatCommandData w := by
    intro w
    cases w with
    | arr xs =>
      simp only [formatCommandData, specFormatCommandData, jsJoinSep_eq_joinSep,
        List.map_map]
      congr 1
      congr 1
      funext d
      by_cases h : jsTypeofObject d = true
      · simp [h, Function.comp, jsElemString]
      · simp only [Bool.not_eq_true] at h
        simp [h, Function.comp]
    | null => rfl
    | bool b => rfl
    | num n => rfl
    | str s => rfl
    | obj fs => rfl
  exact ⟨key v, by simp [decodeCommand, key c.data]⟩

/-- Claim C8: the Decoder's output lists inputs and commands in exactly
the order of the batch's Input table and Command sequence — the lengths
match (no deduplication) and the entry at every position is the rendering
of the batch entry at that same position (no reordering). -/
theorem decodeOrder (inputs : List JVal) (commands : List PTCommand) (i : Nat) :
    (decodeInputs inputs).length = inputs.length
    ∧ (decodeCommands commands).length = commands.length
    ∧ (decodeInputs inputs)[i]? = inputs[i]?.map decodeInput
    ∧ (decodeCommands commands)[i]? = commands[i]?.map decodeCommand := by
  refine ⟨?_, ?_, ?_, ?_⟩ <;> simp [decodeInputs, decodeCommands]

/-- Claim C9: the Decoder is deterministic — two decodings of the same
transaction data, with no mutation in between, are identical display
structures. -/
theorem decoderDeterminism (t : PTData)
    (r1 r2 : Option (List InputDisplay) × Option (List CommandDisplay))
    (h1 : decodeTransactionView t = r1) (h2 : decodeTransactionView t = r2) :
    r1 = r2 :=
  h1.symm.trans h2

/-- Claim C9, witness: determinism at a concrete transaction. -/
theorem decoderDeterminism_witness :
    (inputsView (some [JVal.str "0x2"]), commandsView (none : Option (List PTCommand)))
      = (inputsView (some [JVal.str "0x2"]), commandsView none) :=
  decoderDeterminism { inputs := some [JVal.str "0x2"], commands := none } _ _ rfl rfl

/-- Claim C10: an absent or empty input list, and likewise an absent or
empty command list, produces no display structure at all (`none`), while a
nonempty list produces the decoded section. -/
theorem emptyViews :
    inputsView none = none ∧ inputsView (some []) = none
    ∧ commandsView none = none ∧ commandsView (some []) = none
    ∧ (∀ v l, inputsView (some (v :: l)) = some (decodeInputs (v :: l)))
    ∧ (∀ c l, commandsView (some (c :: l)) = some (decodeCommands (c :: l))) := by
  refine ⟨rfl, rfl, rfl, rfl, fun v l => ?_, fun c l => ?_⟩ <;>
    simp [inputsView, commandsView]

/-! ## Claim theorems: the Builder and the sponsorship flow -/

theorem setSender_frame (b : TransactionBuilder) (addr : String) :
    (setSender b addr).1.inputs = b.inputs
    ∧ (setSender b addr).1.commands = b.commands
    ∧ (setSender b addr).1.gasOwner = b.gasOwner := by
  cases hs : b.sender with
  | none => simp [setSender, hs]
  | some a => by_cases he : a = addr <;> simp [setSender, hs, he]

theorem setGasOwner_frame (b : TransactionBuilder) (addr : String) :
    (setGasOwner b addr).1.inputs = b.inputs
    ∧ (setGasOwner b addr).1.commands = b.commands
    ∧ (setGasOwner b addr).1.sender = b.sender := by
  cases hs : b.gasOwner with
  | none => simp [setGasOwner, hs]
  | some a => by_cases he : a = addr <;> simp [setGasOwner, hs, he]

/-- Claim C4: serializing any builder state to kind bytes and
deserializing them back reproduces an identical Input table and Command
sequence, in order and content, with the sender and gas-owner fields
absent. -/
theorem kindBytesRoundTrip (b : TransactionBuilder) :
    fromKindBytes (toKindBytes b) =
      some { inputs := b.inputs, commands := b.commands,
             sender := none, gasOwner := none } :=
  fromKindBytes_toKindBytes b

/-- Claim C3: the sponsorship flow — reconstructing from kind bytes, then
`setSender` with the original sender and `setGasOwner` with the sponsor —
yields a transaction whose sender and gas-owner are the two distinct
addresses and whose Input table and Command sequence are identical to the
original's; moreover the sender / gas-owner attachments never touch the
Inputs or Commands of any builder state. -/
theorem sponsorshipFlow (orig : TransactionBuilder) (sender sponsor : String)
    (hdistinct : sender ≠ sponsor) :
    sponsorTransaction sender (toKindBytes orig) sponsor =
      some { inputs := orig.inputs, commands := orig.commands,
             sender := some sender, gasOwner := some sponsor }
    ∧ (some sender : Option String) ≠ some sponsor
    ∧ (∀ b addr, (setSender b addr).1.inputs = b.inputs
        ∧ (setSender b addr).1.commands = b.commands)
    ∧ (∀ b addr, (setGasOwner b addr).1.inputs = b.inputs
        ∧ (setGasOwner b addr).1.commands = b.commands) := by
  refine ⟨?_, by simp [hdistinct], ?_, ?_⟩
  · unfold sponsorTransaction
    rw [fromKindBytes_toKindBytes orig]
    simp [setSender, setGasOwner]
  · intro b addr
    exact ⟨(setSender_frame b addr).1, (setSender_frame b addr).2.1⟩
  · intro b addr
    exact ⟨(setGasOwner_frame b addr).1, (setGasOwner_frame b addr).2.1⟩

/-- A concrete builder state used to witness the sponsorship flow. -/
def sampleKind : TransactionBuilder :=
  { inputs := [.pure [1, 2, 3], .objectRef "0x2" (some 1) none],
    commands := [{ kind := .split, args := [.gasCoin, .inputRef 0] }],
    sender := none, gasOwner := none }

/-- Claim C3, witness: the sponsorship flow at a concrete kind and two
distinct addresses. -/
theorem sponsorshipFlow_witness :
    sponsorTransaction "0xa" (toKindBytes sampleKind) "0xb" =
      some { inputs := sampleKind.inputs, commands := sampleKind.commands,
             sender := some "0xa", gasOwner := some "0xb" } :=
  (sponsorshipFlow sampleKind "0xa" "0xb" (by decide)).1

/-- Claim C5: `addCommand` fails with `DangedReference`, mutating nothing,
whenever some argument is a `ResultRef` to a command index at or past the
new command's own index (the current command count); and it succeeds with
an atomic append and returns the new command's index whenever every
`ResultRef` points strictly below the count, the arity matches, and every
`InputRef` resolves. -/
theorem addCommandReferences (b : TransactionBuilder) (k : CommandKind)
    (args : List Argument) :
    ((∃ c s, Argument.resultRef c s ∈ args ∧ b.commands.length ≤ c) →
        addCommand b k args = (b, .error .DangedReference))
    ∧ (arityOk k args = true →
       (∀ i, Argument.inputRef i ∈ args → i < b.inputs.length) →
       (∀ c s, Argument.resultRef c s ∈ args → c < b.commands.length) →
        addCommand b k args =
          ({ b with commands := b.commands ++ [{ kind := k, args := args }] },
           .ok b.commands.length)) := by
  constructor
  · rintro ⟨c, s, hmem, hge⟩
    have hall : args.all (argResolves b) = false := by
      rw [List.all_eq_false]
      refine ⟨_, hmem, ?_⟩
      simp [argResolves]
      omega
    simp [addCommand, hall]
  · intro ha hin hres
    have hall : args.all (argResolves b) = true := by
      rw [List.all_eq_true]
      intro a hmem
      cases a with
      | inputRef i => simpa [argResolves] using hin i hmem
      | resultRef c s => simpa [argResolves] using hres c s hmem
      | gasCoin => rfl
    simp [addCommand, hall, ha]

/-- Claim C5, witness: a self-reference (`ResultRef 0` at command count 0)
is rejected without mutation, and the same shape of command succeeds once
a strictly earlier command exists. -/
theorem addCommandReferences_witness :
    addCommand { inputs := [InputValue.pure [1]], commands := [],
                 sender := none, gasOwner := none }
        CommandKind.split [Argument.gasCoin, Argument.resultRef 0 none] =
      ({ inputs := [InputValue.pure [1]], commands := [],
         sender := none, gasOwner := none },
       Except.error BuildError.DangedReference)
    ∧ addCommand { inputs := [], commands := [{ kind := .merge, args := [] }],
                   sender := none, gasOwner := none }
        CommandKind.split [Argument.gasCoin, Argument.resultRef 0 none] =
      ({ inputs := [],
         commands := [{ kind := .merge, args := [] },
                      { kind := .split,
                        args := [Argument.gasCoin, Argument.resultRef 0 none] }],
         sender := none, gasOwner := none },
       Except.ok 1) := by
  constructor
  · exact (addCommandReferences _ _ _).1 ⟨0, none, by simp, by simp⟩
  · refine (addCommandReferences _ _ _).2 (by decide) ?_ ?_
    · intro i h
      simp at h
    · intro c s h
      simp at h
      obtain ⟨h1, h2⟩ := h
      subst h1
      decide

/-- Claim C6: `finalize()` fails with `MissingSender` whenever the sender
field is unset, with no implicit defaulting; and after a successful
`setSender(addr)`, `finalize()` succeeds with a Batch whose sender is
`addr`. -/
theorem finalizeSender (b : TransactionBuilder) (addr : String) :
    (b.sender = none → finalize b = .error .MissingSender)
    ∧ ((setSender b addr).2 = .ok () →
        finalize (setSender b addr).1 =
          .ok { inputs := b.inputs, commands := b.commands, sender := addr,
                gasOwner := b.gasOwner.getD addr }) := by
  constructor
  · intro h
    simp [finalize, h]
  · intro h
    cases hs : b.sender with
    | none => simp [setSender, hs, finalize]
    | some a =>
      by_cases he : a = addr
      · subst he
        simp [setSender, hs, finalize]
      · exfalso
        simp [setSender, hs, he] at h

/-- Claim C6, witness: finalizing the empty builder fails with
`MissingSender`, and finalizing after `setSender` succeeds with that
sender. -/
theorem finalizeSender_witness :
    finalize emptyBuilder = .error .MissingSender
    ∧ finalize (setSender emptyBuilder "0xa").1 =
        .ok { inputs := [], commands := [], sender := "0xa", gasOwner := "0xa" } :=
  ⟨(finalizeSender emptyBuilder "0xa").1 rfl,
   (finalizeSender emptyBuilder "0xa").2 rfl⟩

/-- Claim C7: over any sequence of successful `addInput`/`addCommand`
calls, the returned input indices are exactly the consecutive range
starting at the Input table's length (each new input's index is the table
length before its insertion) and likewise for command indices; both index
traces are strictly increasing in call order, and the table's prior
entries survive unchanged at their positions (never reused or
reordered). -/
theorem builderIndexMonotonic (b : TransactionBuilder) (ops : List BuildOp)
    (hok : ∀ e, RetRef.failed e ∉ (runOps b ops).2) :
    inputIdxs (runOps b ops).2 = List.range' b.inputs.length (countInputOps ops)
    ∧ resultIdxs (runOps b ops).2 =
        List.range' b.commands.length (countCommandOps ops)
    ∧ List.Pairwise (· < ·) (inputIdxs (runOps b ops).2)
    ∧ List.Pairwise (· < ·) (resultIdxs (runOps b ops).2)
    ∧ (runOps b ops).1.inputs.take b.inputs.length = b.inputs
    ∧ (runOps b ops).1.commands.take b.commands.length = b.commands := by
  obtain ⟨h1, h2⟩ := runOps_indices ops b hok
  obtain ⟨s1, s2, he1, he2⟩ := runOps_extend ops b
  refine ⟨h1, h2, ?_, ?_, ?_, ?_⟩
  · rw [h1]
    exact List.pairwise_lt_range' _ _
  · rw [h2]
    exact List.pairwise_lt_range' _ _
  · rw [he1]
    exact List.take_left _ _
  · rw [he2]
    exact List.take_left _ _

/-- A concrete successful call sequence used to witness the index
discipline. -/
def sampleOps : List BuildOp :=
  [.addInputOp (.pure [1]), .addInputOp (.pure [2]),
   .addCommandOp .split [.gasCoin, .inputRef 0]]

/-- Claim C7, witness: the index discipline over a concrete successful
sequence of two `addInput` calls and one `addCommand` call from the empty
builder. -/
theorem builderIndexMonotonic_witness :
    inputIdxs (runOps emptyBuilder sampleOps).2 =
      List.range' emptyBuilder.inputs.length (countInputOps sampleOps)
    ∧ resultIdxs (runOps emptyBuilder sampleOps).2 =
        List.range' emptyBuilder.commands.length (countCommandOps sampleOps)
    ∧ List.Pairwise (· < ·) (inputIdxs (runOps emptyBuilder sampleOps).2)
    ∧ List.Pairwise (· < ·) (resultIdxs (runOps emptyBuilder sampleOps).2)
    ∧ (runOps emptyBuilder sampleOps).1.inputs.take emptyBuilder.inputs.length
        = emptyBuilder.inputs
    ∧ (runOps emptyBuilder sampleOps).1.commands.take emptyBuilder.commands.length
        = emptyBuilder.commands := by
  refine builderIndexMonotonic emptyBuilder sampleOps ?_
  have htr : (runOps emptyBuilder sampleOps).2 =
      [RetRef.inputIdx 0, RetRef.inputIdx 1, RetRef.resultIdx 0] := rfl
  intro e h
  rw [htr] at h
  simp at h
